import Mathlib

/-!
Verification of the semantic/runtime core of the `project-jellyfish`
tree-walking interpreter (Rust sources under `code/src/`).

The Rust code is shallowly embedded: each definition below mirrors one
Rust item, named after it.  Machine numbers (`f64`) are modelled by `ℚ`
(the claims under study only involve exact small values and the
zero-tests the source performs are exact), `i32` arithmetic is modelled
by `ℤ` with explicit truncation/clamping where the source casts, and
`usize` by `ℕ`.  Rust `Result<_, String>` is modelled by an explicit
result type that also has a `panicked` constructor for the places where
the source indexes a `HashMap`/`Vec` unconditionally or divides by zero
on machine integers (Rust panics there).
-/

namespace Jellyfish

/-! ## `semantic_analyzer.rs`: `SymbolType` and its `PartialEq` -/

/-- Mirrors `SymbolType` from `semantic_analyzer.rs`. -/
structure SymbolType where
  basic_type : String
  is_pointer : Bool
  array_dimensions : Int
deriving DecidableEq, Repr

/-- Mirrors `impl PartialEq for SymbolType` (`semantic_analyzer.rs`,
lines 44–57): `basic` is compared only when neither side is the
wildcard `"*"`, `arr` only when both sides are nonnegative, and the
`is_pointer` field is never inspected. -/
def symbolTypeEq (a b : SymbolType) : Bool :=
  let basic : Bool :=
    if a.basic_type ≠ "*" ∧ b.basic_type ≠ "*" then a.basic_type == b.basic_type else true
  let arr : Bool :=
    if 0 ≤ a.array_dimensions ∧ 0 ≤ b.array_dimensions then
      a.array_dimensions == b.array_dimensions
    else true
  basic && arr

/-- Modelled from the spec's words (for refinement comparison only):
"Equality is structural" over the record
`{basic_type, is_pointer, array_dimensions}` "with these wildcards as
joker positions" — `basic_type = "*"` on either side matches any named
type, `array_dimensions = -1` on either side matches any rank, and the
remaining position `is_pointer` is compared structurally. -/
def symbolTypeEqSpec (a b : SymbolType) : Bool :=
  (a.basic_type == "*" || b.basic_type == "*" || a.basic_type == b.basic_type)
  && (a.is_pointer == b.is_pointer)
  && (a.array_dimensions == -1 || b.array_dimensions == -1
      || a.array_dimensions == b.array_dimensions)

/-! ## `interpreter.rs`: memory-management data model -/

/-- Mirrors `enum PointerType` (`interpreter.rs`, lines 15–21). -/
inductive PointerType where
  | LINK (inner : PointerType)
  | PRIMITIVE
  | ARRAY (bounds : List (Int × Int)) (elem : PointerType)
  | STRUCTURE (name : String)
deriving DecidableEq, Repr

/-- Mirrors `struct Pointer` (`interpreter.rs`, lines 24–29). -/
structure Pointer where
  address : Nat
  size : Nat
  pointer_type : PointerType
deriving DecidableEq, Repr

/-- Mirrors `Pointer::null`. -/
def Pointer.null : Pointer := ⟨0, 0, .PRIMITIVE⟩

/-- Mirrors `struct MemorySpace` (`interpreter.rs`, lines 42–46). -/
structure MemorySpace where
  address : Nat
  size : Nat
deriving DecidableEq, Repr

/-- Mirrors `impl Ord for MemorySpace` (`interpreter.rs`, lines 57–64):
compare by `size`; on a tie the *lower* address is the greater element
(`other.address.cmp(&self.address)`). -/
def MemorySpace.cmp (a b : MemorySpace) : Ordering :=
  if a.size ≠ b.size then compare a.size b.size
  else compare b.address a.address

/-- Mirrors `enum PrimitiveType` (`interpreter.rs`, lines 395–403).
`f64` payloads are modelled by `ℚ`. -/
inductive PrimitiveType where
  | NUMBER (n : ℚ)
  | TEXT (t : String)
  | NOTHING
  | INITIALIZED
  | POINTER (p : Pointer)
  | INVALID
deriving DecidableEq, Repr

/-- Mirrors `impl From<PrimitiveType> for bool` (`interpreter.rs`,
lines 405–413). -/
def PrimitiveType.toBool : PrimitiveType → Bool
  | .TEXT t => t.length > 0
  | .NUMBER n => n ≠ 0
  | _ => false

/-- Mirrors `struct Environment` (`interpreter.rs`, lines 66–77).
The namespace stack is stored innermost-frame-first (the Rust `Vec`
pushes/pops at its end; our list head is that end).  The `BinaryHeap`
is modelled by the list of its elements (`heapPeek` below recovers the
element `BinaryHeap::peek`/`pop` would return under `MemorySpace.cmp`). -/
structure Environment where
  namespaceFrames : List (List (String × Pointer))
  memory : List PrimitiveType
  heap : List MemorySpace
  linked_values : List (Nat × Int)
deriving DecidableEq, Repr

/-- The greatest element of the heap under `MemorySpace.cmp`; this is
what `BinaryHeap::peek` (a max-heap) returns.  Folding keeps the
incumbent on ties, which is irrelevant because `MemorySpace.cmp` is
antisymmetric (`.eq` only for structurally equal records). -/
def heapPeekStep (acc : Option MemorySpace) (x : MemorySpace) : Option MemorySpace :=
  match acc with
  | none => some x
  | some m => if MemorySpace.cmp x m = .gt then some x else some m

def heapPeek (heap : List MemorySpace) : Option MemorySpace :=
  heap.foldl heapPeekStep none

/-- Mirrors `Environment::alloc` (`interpreter.rs`, lines 105–131).
Returns the chosen address and the updated environment.  If the heap is
empty or its top (the region `MemorySpace.cmp` ranks greatest, i.e. of
*largest* size) is smaller than the request, the memory vector is
extended with `INITIALIZED` cells; otherwise that top region is popped
and any remainder is pushed back. -/
def Environment.alloc (env : Environment) (size : Nat) : Nat × Environment :=
  match heapPeek env.heap with
  | none =>
      (env.memory.length,
       { env with memory := env.memory ++ List.replicate size .INITIALIZED })
  | some m =>
      if m.size < size then
        (env.memory.length,
         { env with memory := env.memory ++ List.replicate size .INITIALIZED })
      else
        let heap' := env.heap.erase m
        let remaining := m.size - size
        let heap'' := if remaining > 0 then ⟨m.address + size, remaining⟩ :: heap' else heap'
        (m.address, { env with heap := heap'' })

/-- Modelled from the spec's words (for refinement comparison only):
"**alloc(size)**: pick the single free region with the smallest size
that is ≥ `size` (best-fit), tie-broken by highest starting address".
Returns the region the spec designates, when one fits. -/
def allocSpecPick (heap : List MemorySpace) (size : Nat) : Option MemorySpace :=
  (heap.filter (fun r => size ≤ r.size)).foldl
    (fun acc x =>
      match acc with
      | none => some x
      | some m =>
          if x.size < m.size ∨ (x.size = m.size ∧ m.address < x.address) then some x
          else some m)
    none

/-- Outcome of running a piece of interpreter code: the Rust `Ok`,
`Err(String)`, or a Rust panic (out-of-bounds `Vec`/missing `HashMap`
index, integer division by zero).  `outOfFuel` is the artefact of
bounding the unboundedly recursive Rust code; no theorem below rests on
an `outOfFuel` outcome. -/
inductive RunResult (α : Type) where
  | ok (a : α)
  | err (msg : String)
  | panicked
  | outOfFuel
deriving Repr, DecidableEq

def RunResult.bind {α β : Type} : RunResult α → (α → RunResult β) → RunResult β
  | .ok a, f => f a
  | .err m, _ => .err m
  | .panicked, _ => .panicked
  | .outOfFuel, _ => .outOfFuel

instance : Monad RunResult where
  pure := RunResult.ok
  bind := RunResult.bind

/-- Mirrors `Environment::get_value` (`interpreter.rs`, lines 164–171):
clone the cell at the pointer's address, or `Err` if out of bounds. -/
def Environment.get_value (env : Environment) (pointer : Pointer) : RunResult PrimitiveType :=
  match env.memory[pointer.address]? with
  | some c => .ok c
  | none => .err "Accessing a memory address out of bounds"

/-- Mirrors `Environment::set_value` (`interpreter.rs`, lines 175–178):
`self.memory[pointer.address] = value` — an out-of-bounds address makes
Rust panic. -/
def Environment.set_value (env : Environment) (pointer : Pointer) (value : PrimitiveType) :
    RunResult Environment :=
  if pointer.address < env.memory.length then
    .ok { env with memory := env.memory.set pointer.address value }
  else .panicked

/-- Mirrors `Environment::get_id` (`interpreter.rs`, lines 183–200):
search the namespace frames innermost-first.  (The Rust source special-
cases a single frame, but that branch checks the same single frame.) -/
def Environment.get_id (env : Environment) (id : String) : RunResult Pointer :=
  match env.namespaceFrames.firstM (fun frame => (frame.lookup id)) with
  | some p => .ok p
  | none => .err ("Could not find id '" ++ id ++ "' in the namespace")

/-- Mirrors `Environment::insert_id` (`interpreter.rs`, lines 218–228):
error (without inserting) if the innermost frame already binds `id`. -/
def Environment.insert_id (env : Environment) (id : String) (pointer : Pointer) :
    RunResult Environment :=
  match env.namespaceFrames with
  | [] => .panicked
  | frame :: rest =>
      if (frame.lookup id).isSome then
        .err ("Cannot have duplicate variables " ++ id)
      else .ok { env with namespaceFrames := ((id, pointer) :: frame) :: rest }

/-- Mirrors `Environment::scope_in` (`interpreter.rs`, lines 233–235). -/
def Environment.scope_in (env : Environment) : Environment :=
  { env with namespaceFrames := [] :: env.namespaceFrames }

/-- Mirrors `Environment::dealloc` (`interpreter.rs`, lines 134–161).
Array/structure pointers recurse cell by cell with primitive
sub-pointers; a primitive cell holding a non-link `POINTER` is released
recursively (a `LINK` target is left alone — the source's arm is a
`TODO` no-op) and the cell is overwritten with `NOTHING`.  Rust's
recursion can chase pointer chains through memory of unbounded length,
hence the fuel. -/
def Environment.dealloc (env : Environment) : Nat → Pointer → RunResult Environment
  | 0, _ => .outOfFuel
  | fuel + 1, pointer =>
    match pointer.pointer_type with
    | .ARRAY _ _ | .STRUCTURE _ =>
        (List.range pointer.size).foldlM
          (fun (e : Environment) i =>
            e.dealloc fuel ⟨pointer.address + i, 1, .PRIMITIVE⟩)
          env
    | _ =>
        match env.get_value pointer with
        | .ok (.POINTER p) =>
            match p.pointer_type with
            | .LINK _ => env.set_value pointer .NOTHING
            | _ => do
                let e ← env.dealloc fuel p
                e.set_value pointer .NOTHING
        | _ => env.set_value pointer .NOTHING

/-- The trailing-`NOTHING` truncation at the start of
`Environment::build_heap` (`interpreter.rs`, lines 272–274).  The Rust
loop panics when every cell is `NOTHING` (it then indexes an empty
vector); callers below guard that case explicitly. -/
def truncTrailingNothing (memory : List PrimitiveType) : List PrimitiveType :=
  (memory.reverse.dropWhile (· == .NOTHING)).reverse

theorem length_dropWhile_le' {α : Type} (p : α → Bool) (l : List α) :
    (l.dropWhile p).length ≤ l.length := by
  induction l with
  | nil => simp
  | cons a t ih =>
      by_cases h : p a
      · rw [List.dropWhile_cons_of_pos h]; simpa using Nat.le_succ_of_le ih
      · rw [List.dropWhile_cons_of_neg (by simpa using h)]

/-- The scan loop of `Environment::build_heap` (`interpreter.rs`, lines
276–295): walk the memory from address `a`, pushing one `MemorySpace`
per maximal run of `NOTHING` cells (the `addr += 1` after a push skips
the necessarily non-`NOTHING` cell that ended the run). -/
def scanRuns : List PrimitiveType → Nat → List MemorySpace
  | [], _ => []
  | c :: rest, a =>
      if c = .NOTHING then
        let n := 1 + (rest.takeWhile (· == .NOTHING)).length
        ⟨a, n⟩ :: scanRuns ((rest.dropWhile (· == .NOTHING)).drop 1) (a + n + 1)
      else
        scanRuns rest (a + 1)
termination_by l => l.length
decreasing_by
  · simp only [List.length_cons]
    have h1 : ((rest.dropWhile (· == PrimitiveType.NOTHING)).drop 1).length
        ≤ (rest.dropWhile (· == PrimitiveType.NOTHING)).length := by
      rw [List.length_drop]; omega
    have h2 : (rest.dropWhile (· == PrimitiveType.NOTHING)).length ≤ rest.length :=
      length_dropWhile_le' _ _
    omega
  · simp only [List.length_cons]; omega

/-- Mirrors `Environment::build_heap` (`interpreter.rs`, lines 263–296):
truncate trailing `NOTHING` cells, then rebuild the (cleared) free heap
from the maximal `NOTHING` runs.  `panicked` models the Rust panic when
no cell differs from `NOTHING`. -/
def Environment.build_heap (env : Environment) : RunResult Environment :=
  if env.memory.any (fun c => ! (c == .NOTHING)) then
    let memory' := truncTrailingNothing env.memory
    .ok { env with memory := memory', heap := scanRuns memory' 0 }
  else .panicked

/-- Mirrors `Environment::scope_out` (`interpreter.rs`, lines 239–261):
pop the innermost frame; deallocate each of its pointers that no
remaining frame also holds (compared by full `Pointer` equality — the
link-count table is *not* consulted); then `build_heap`. -/
def Environment.scope_out (env : Environment) (fuel : Nat) : RunResult Environment :=
  match env.namespaceFrames with
  | [] => .panicked
  | frame :: rest => do
      let env0 : Environment := { env with namespaceFrames := rest }
      let env1 ← frame.foldlM
        (fun (e : Environment) (entry : String × Pointer) =>
          let seen := rest.any (fun fr => fr.any (fun v => v.2 = entry.2))
          if seen then pure e else e.dealloc fuel entry.2)
        env0
      env1.build_heap

/-! ## `interpreter.rs`: literal values and numeric primitives -/

/-- Mirrors `struct LiteralValue` (`interpreter.rs`, lines 306–312). -/
inductive LiteralValue where
  | mk (lit_type : String) (is_primitive : Bool)
       (values : Option (List LiteralValue)) (value : Option PrimitiveType)
deriving Repr

def LiteralValue.lit_type : LiteralValue → String
  | .mk t _ _ _ => t

def LiteralValue.is_primitive : LiteralValue → Bool
  | .mk _ p _ _ => p

def LiteralValue.values : LiteralValue → Option (List LiteralValue)
  | .mk _ _ vs _ => vs

def LiteralValue.value : LiteralValue → Option PrimitiveType
  | .mk _ _ _ v => v

/-- Mirrors `LiteralValue::null`. -/
def LiteralValue.null : LiteralValue := .mk "nothing" true none (some .NOTHING)

/-- Mirrors `LiteralValue::from_number`. -/
def LiteralValue.from_number (n : ℚ) : LiteralValue := .mk "number" true none (some (.NUMBER n))

/-- Mirrors `LiteralValue::from_text`. -/
def LiteralValue.from_text (t : String) : LiteralValue := .mk "text" true none (some (.TEXT t))

/-- Mirrors `LiteralValue::extract_number` (`interpreter.rs`, lines
342–351).  (The source unwraps `self.value`, which would panic when the
field is `None`; the evaluator never builds such a value and the model
returns `none` there.) -/
def LiteralValue.extract_number (lv : LiteralValue) : Option ℚ :=
  if lv.lit_type ≠ "number" ∨ ¬ lv.is_primitive then none
  else match lv.value with
    | some (.NUMBER n) => some n
    | _ => none

/-- Mirrors `LiteralValue::extract_text` (`interpreter.rs`, lines 353–362). -/
def LiteralValue.extract_text (lv : LiteralValue) : Option String :=
  if lv.lit_type ≠ "text" ∨ ¬ lv.is_primitive then none
  else match lv.value with
    | some (.TEXT t) => some t
    | _ => none

/-- Rust `f64 as i32`. truncation toward zero, saturating at the i32
range. -/
def truncQ (q : ℚ) : ℤ := if 0 ≤ q then ⌊q⌋ else ⌈q⌉

def toI32 (q : ℚ) : ℤ := max (-(2 ^ 31)) (min (2 ^ 31 - 1) (truncQ q))

/-- Two's-complement reinterpretations used to model i32 bitwise ops. -/
def u32ofI (x : ℤ) : ℕ := (x % 2 ^ 32).toNat

def i32ofU (n : ℕ) : ℤ := if n < 2 ^ 31 then (n : ℤ) else (n : ℤ) - 2 ^ 32

def wrap32 (x : ℤ) : ℤ := i32ofU (u32ofI x)

/-- Rust `f64::powf`, modelled exactly for integer exponents (the only
analysable case; a transcendental non-integer `powf` is outside every
claim and is mapped to `0`). -/
def powf (l r : ℚ) : ℚ := if r.den = 1 then l ^ r.num else 0

/-- The binary-operator tokens `eval_resolvable` matches on
(`interpreter.rs`, lines 941–953). -/
inductive BinOp where
  | add | sub | mul | div | pow | mod | band | bor | bxor | bsl | bsr
deriving DecidableEq, Repr

/-- The numeric arm of the `BINOP` branch of `Interpreter::eval_resolvable`
(`interpreter.rs`, lines 933–958), after both operands resolved to
`left_val`/`right_val` (via `extract_number().unwrap_or(0.0)`): the
division-by-zero guard tests `token_type == DIV && right_val == 0.0`
*before* the operator match; `mod` and the bitwise operators cast both
operands with `as i32`.  A zero divisor in `mod` is a Rust panic
(`%` on `i32`), not a guarded error.  (Debug-build panics for shift
counts outside `0..32` are also modelled; the wrap of `i32::MIN % -1`
follows release semantics.) -/
def binopNumeric (op : BinOp) (left_val right_val : ℚ) : RunResult ℚ :=
  if op = .div ∧ right_val = 0 then .err "Cannot divide by zero"
  else
    match op with
    | .add => .ok (left_val + right_val)
    | .sub => .ok (left_val - right_val)
    | .mul => .ok (left_val * right_val)
    | .div => .ok (left_val / right_val)
    | .pow => .ok (powf left_val right_val)
    | .mod =>
        if toI32 right_val = 0 then .panicked
        else .ok ((Int.tmod (toI32 left_val) (toI32 right_val) : ℤ) : ℚ)
    | .band => .ok ((i32ofU (Nat.land (u32ofI (toI32 left_val)) (u32ofI (toI32 right_val))) : ℤ) : ℚ)
    | .bor => .ok ((i32ofU (Nat.lor (u32ofI (toI32 left_val)) (u32ofI (toI32 right_val))) : ℤ) : ℚ)
    | .bxor => .ok ((i32ofU (Nat.xor (u32ofI (toI32 left_val)) (u32ofI (toI32 right_val))) : ℤ) : ℚ)
    | .bsl =>
        if toI32 right_val < 0 ∨ 32 ≤ toI32 right_val then .panicked
        else .ok ((wrap32 (toI32 left_val * 2 ^ (toI32 right_val).toNat) : ℤ) : ℚ)
    | .bsr =>
        if toI32 right_val < 0 ∨ 32 ≤ toI32 right_val then .panicked
        else .ok ((Int.fdiv (toI32 left_val) (2 ^ (toI32 right_val).toNat) : ℤ) : ℚ)

/-! ## `interpreter.rs`: parse-tree fragment and interpreter state

The evaluator below embeds the statement/expression fragment of the
parse tree that the interpreter's `eval_*` methods consume.  Reference
expressions (`ID`/`GETINDEX`/`GETSTRUCT`) and `LINK` literals are not
part of the fragment (no claim under study evaluates them inside a
program); the `GETINDEX` address arithmetic of `eval_reference` is
embedded separately further below.  `QUIT` (a `process::exit`) and
`ASSIGN` are likewise outside the fragment. -/

/-- Resolvable expressions (`Interpreter::eval_resolvable` inputs). -/
inductive Expr where
  | numLit (n : ℚ)
  | textLit (s : String)
  | otherLit
  | binop (op : BinOp) (l r : Expr)
  | call (fname : String) (args : List Expr)
  | arrayLit (elems : List Expr)
  | structLit (elems : List Expr)
deriving Repr

/-- Conditional trees (`BINCOMP`/`ISLINKED`/`ISNOTLINKED`).  The
interpreter's `eval_conditional` (`interpreter.rs`, lines 1206–1208) is
a stub that ignores its tree entirely and returns `Ok(NOTHING)`. -/
inductive CondTree where
  | binComp (l r : Expr)
  | isLinked (id : String)
  | isNotLinked (id : String)
deriving Repr

/-- Type trees consumed by `Interpreter::eval_type`: a bare type leaf, an
`ARRAYDEF` (bound expressions over a leaf element type name), or a
`POINTER` wrapper. -/
inductive TypeTree where
  | base (name : String)
  | arrayDef (bounds : List (Option Expr × Expr)) (elemName : String)
  | pointerTo (inner : TypeTree)
deriving Repr

/-- Statements dispatched by `Interpreter::eval_body`. -/
inductive Stmt where
  | sIf (cond : CondTree) (thenB : List Stmt) (els : Option Stmt)
  | block (body : List Stmt)
  | sWhile (cond : CondTree) (body : List Stmt)
  | sRepeat (n : Expr) (body : List Stmt)
  | sRepeatFor (id : String) (arr : Expr) (body : List Stmt)
  | sRepeatForever (body : List Stmt)
  | sLink (target linkee : String)
  | sUnlink (target : String)
  | sBreak
  | sContinue
  | sReturn (e : Option Expr)
  | varDecl (ids : List String) (ty : TypeTree)
  | exprStmt (e : Expr)
deriving Repr

/-- Mirrors `enum LoopStatus` (`interpreter.rs`, lines 415–421). -/
inductive LoopStatus where
  | DEFAULT | BREAK | CONTINUE | RETURN
deriving DecidableEq, Repr

/-- Mirrors `struct InterpreterFunctionObj` (`interpreter.rs`, lines
423–429). -/
structure InterpreterFunctionObj where
  name : String
  param_names : List String
  param_pointers : List Pointer
  body : List Stmt
deriving Repr

/-- The runtime slice of `SymbolTable` the interpreter touches:
`scope_in`/`scope_out` (used by `eval_if`/`eval_while`) and
`struct_args` (used by `get_struct_size`, modelled as each structure's
ordered key list). -/
structure SymbolTableRT where
  symbols : List (List (String × SymbolType))
  depth : Nat
  struct_args : List (String × List String)
deriving Repr

/-- Mirrors `SymbolTable::scope_in` (`semantic_analyzer.rs`, lines
158–161). -/
def SymbolTableRT.scope_in (tb : SymbolTableRT) : SymbolTableRT :=
  { tb with symbols := tb.symbols ++ [[]], depth := tb.depth + 1 }

/-- Mirrors `SymbolTable::scope_out` (`semantic_analyzer.rs`, lines
165–168).  (Rust would panic on `depth == 0`; every runtime use follows
a `scope_in`.) -/
def SymbolTableRT.scope_out (tb : SymbolTableRT) : SymbolTableRT :=
  { tb with symbols := tb.symbols.eraseIdx tb.depth, depth := tb.depth - 1 }

/-- Mirrors the mutable fields of `struct Interpreter` (`interpreter.rs`,
lines 431–439). -/
structure InterpState where
  symbol_table : SymbolTableRT
  return_value : LiteralValue
  loop_status : LoopStatus
  in_function_call : Int
  env : Environment
  structure_defs : List (String × List Pointer)
  function_defs : List (String × InterpreterFunctionObj)
deriving Repr

/-- Mirrors `Interpreter::get_struct_size` (`interpreter.rs`, lines
457–463). -/
def InterpState.get_struct_size (st : InterpState) (id : String) : RunResult Nat :=
  match st.symbol_table.struct_args.lookup id with
  | some keys => .ok keys.length
  | none => .err ("Cannot find strucutre " ++ id)

/-- Mirrors `Interpreter::eval_conditional` (`interpreter.rs`, lines
1206–1208): a `Todo Memory` stub that evaluates nothing and returns
`Ok(PrimitiveType::NOTHING)`. -/
def evalConditional (st : InterpState) (_c : CondTree) : RunResult (InterpState × PrimitiveType) :=
  .ok (st, .NOTHING)

/-- A Rust call whose `Result` is discarded with a `;`
(`set_literal_in_memory` at `interpreter.rs` lines 549, 555, 587 and
608 and `insert_id` at lines 1093/1102): state changes made by a
successful call are kept, an `Err` is dropped.  (Partial writes made
before an inner error are not recoverable in the model; no claim
depends on such a run.) -/
def discardErr (r : RunResult InterpState) (fallback : InterpState) : RunResult InterpState :=
  match r with
  | .ok s => .ok s
  | .err _ => .ok fallback
  | .panicked => .panicked
  | .outOfFuel => .outOfFuel

/-- The `ID`/`IDS` loop of `Interpreter::eval_vardef` (`interpreter.rs`,
lines 1088–1104): per name, allocate and `insert_id` — whose `Result`
the source discards (no `?`), so a duplicate name leaves the allocation
in place but skips the binding. -/
def vardefBind : InterpState → Pointer → List String → InterpState × Pointer
  | st, ptr, [] => (st, ptr)
  | st, ptr, id :: rest =>
      let (a, env1) := st.env.alloc ptr.size
      let p := { ptr with address := a }
      let env2 := match env1.insert_id id p with
        | .ok e => e
        | _ => env1
      vardefBind { st with env := env2 } p rest

/-! ## The tree-walking evaluator

The `eval_*` methods of `Interpreter` are mutually recursive and (via
user-defined functions, memory indirections and `repeat`-style loops)
can recurse unboundedly, so the embedding is a fuel-indexed family of
evaluators: level `fuel + 1` is built from level `fuel`, and every
recursive call in the Rust source becomes a call one level down.  The
recursion on the fuel is structural, so concrete runs reduce
definitionally.  No theorem below rests on an `outOfFuel` outcome. -/

/-- One level of the evaluator: one field per `Interpreter` method (or
per loop of such a method) in the embedded fragment. -/
structure Machine where
  res : InterpState → Expr → RunResult (InterpState × LiteralValue)
  resList : InterpState → List Expr → RunResult (InterpState × List LiteralValue)
  stmt : InterpState → Stmt → RunResult InterpState
  body : InterpState → List Stmt → RunResult InterpState
  runIf : InterpState → CondTree → List Stmt → Option Stmt → RunResult InterpState
  runWhile : InterpState → CondTree → List Stmt → RunResult InterpState
  ret : InterpState → Option Expr → RunResult InterpState
  typeOf : InterpState → TypeTree → RunResult (InterpState × Pointer)
  boundsOf : InterpState → List (Option Expr × Expr) →
    RunResult (InterpState × (List (Int × Int) × Nat))
  runVarDecl : InterpState → List String → TypeTree → RunResult (InterpState × Pointer)
  setLit : InterpState → Pointer → LiteralValue → RunResult InterpState
  setArrayElems : InterpState → Nat → Nat → PointerType → Nat → List LiteralValue →
    RunResult InterpState
  setStructElems : InterpState → Nat → List (Pointer × LiteralValue) → RunResult InterpState
  bindParams : InterpState → List ((LiteralValue × String) × Pointer) → RunResult InterpState

/-- The fuel-0 machine: everything is out of fuel. -/
def machineZero : Machine where
  res _ _ := .outOfFuel
  resList _ _ := .outOfFuel
  stmt _ _ := .outOfFuel
  body _ _ := .outOfFuel
  runIf _ _ _ _ := .outOfFuel
  runWhile _ _ _ := .outOfFuel
  ret _ _ := .outOfFuel
  typeOf _ _ := .outOfFuel
  boundsOf _ _ := .outOfFuel
  runVarDecl _ _ _ := .outOfFuel
  setLit _ _ _ := .outOfFuel
  setArrayElems _ _ _ _ _ _ := .outOfFuel
  setStructElems _ _ _ := .outOfFuel
  bindParams _ _ := .outOfFuel

/-- One evaluation level on top of machine `m`.  Each field transcribes
the corresponding Rust method; source line references are given per
field. -/
def machineStep (m : Machine) : Machine where
  /- `Interpreter::eval_resolvable` (`interpreter.rs`, lines 907–1075).
  Branch order as in the source: `LIT`, `BINOP`, (references omitted),
  `CALL`, `ARRAYLIT`, `STRUCTLIT` (with the source's `"strucutre"` tag),
  final fall-through `Ok(null)` is unreachable for this fragment. -/
  res st e :=
    match e with
    | .numLit n => .ok (st, .from_number n)
    | .textLit s => .ok (st, .from_text s)
    | .otherLit => .ok (st, .null)
    | .binop op l r => do
        let (st1, left) ← m.res st l
        let (st2, right) ← m.res st1 r
        if ¬ left.is_primitive ∨ ¬ right.is_primitive then
          .err "Cannot perform binary operations on arrays"
        else if left.lit_type = "text" then
          .ok (st2, .from_text ((left.extract_text.getD "") ++ (right.extract_text.getD "")))
        else do
          let n ← binopNumeric op (left.extract_number.getD 0) (right.extract_number.getD 0)
          .ok (st2, .from_number n)
    | .call fname args => do
        -- lines 972–1019: evaluate arguments, `scope_in`, then
        -- `self.function_defs[&fn_id]` — a `HashMap` index that panics
        -- when `fname` is not a user function.  After the body:
        -- `return_value` is saved/restored but `loop_status` is left
        -- alone, and `in_function_call` is only ever incremented.
        let (st1, vals) ← m.resList st args
        let st2 := { st1 with env := st1.env.scope_in }
        match st2.function_defs.lookup fname with
        | none => .panicked
        | some fo => do
            let st3 ← m.bindParams st2 ((vals.zip fo.param_names).zip fo.param_pointers)
            let prev := st3.return_value
            let st4 := { st3 with in_function_call := st3.in_function_call + 1 }
            let st5 ← m.body st4 fo.body
            let newRet := st5.return_value
            let st6 := { st5 with return_value := prev }
            match st6.env.scope_out 1000000 with
            | .ok env' => .ok ({ st6 with env := env' }, newRet)
            | .err msg => .err msg
            | .panicked => .panicked
            | .outOfFuel => .outOfFuel
    | .arrayLit elems => do
        let (st1, vs) ← m.resList st elems
        .ok (st1, .mk "array" false (some vs) none)
    | .structLit elems => do
        let (st1, vs) ← m.resList st elems
        .ok (st1, .mk "strucutre" false (some vs) none)
  /- Argument/element lists are evaluated left to right with `?`. -/
  resList st es :=
    match es with
    | [] => .ok (st, [])
    | e :: rest => do
        let (st1, v) ← m.res st e
        let (st2, vs) ← m.resList st1 rest
        .ok (st2, v :: vs)
  /- `Interpreter::eval_body`'s per-child dispatch (`interpreter.rs`,
  lines 867–903).  A bare `BLOCK` falls into the `_ => is_other` path
  and then through every `eval_resolvable` branch to `Ok(null)`. -/
  stmt st s :=
    match s with
    | .sIf c thenB els => m.runIf st c thenB els
    | .block _ => .ok st
    | .sWhile c bdy => m.runWhile st c bdy
    | .sRepeat _ _ => .ok st          -- `eval_repeat` stub, lines 1248–1250
    | .sRepeatFor _ _ _ => .ok st     -- `eval_repeat_for` stub, lines 1254–1256
    | .sRepeatForever _ => .ok st     -- `eval_repeat_forever` stub, lines 1260–1262
    | .sLink _ _ => .ok st            -- `eval_link` stub, lines 1212–1214
    | .sUnlink _ => .ok st            -- `eval_unlink` stub, lines 1218–1220
    | .sBreak => .ok { st with loop_status := .BREAK }
    | .sContinue => .ok { st with loop_status := .CONTINUE }
    | .sReturn e => m.ret st e
    | .varDecl ids ty => do
        let (st1, _) ← m.runVarDecl st ids ty
        .ok st1
    | .exprStmt e => do
        let (st1, _) ← m.res st e
        .ok st1
  /- the loop of `eval_body`: stop early as soon as `loop_status` is not
  `DEFAULT` (lines 897–899). -/
  body st ss :=
    match ss with
    | [] => .ok st
    | s :: rest => do
        let st1 ← m.stmt st s
        if st1.loop_status ≠ .DEFAULT then .ok st1
        else m.body st1 rest
  /- `Interpreter::eval_if` (`interpreter.rs`, lines 1175–1202): the
  condition comes from the `eval_conditional` stub; both taken branches
  scope the **symbol table**, not the environment. -/
  runIf st c thenB els := do
    let (st1, cond) ← evalConditional st c
    if cond.toBool then do
      let st2 := { st1 with symbol_table := st1.symbol_table.scope_in }
      let st3 ← m.body st2 thenB
      .ok { st3 with symbol_table := st3.symbol_table.scope_out }
    else
      match els with
      | some (.sIf c2 t2 e2) => m.runIf st1 c2 t2 e2
      | some (.block bdy) => do
          let st2 := { st1 with symbol_table := st1.symbol_table.scope_in }
          let st3 ← m.body st2 bdy
          .ok { st3 with symbol_table := st3.symbol_table.scope_out }
      | _ => .ok st1
  /- `Interpreter::eval_while` (`interpreter.rs`, lines 1223–1244):
  symbol-table scoping around each iteration; `BREAK` resets and exits,
  `CONTINUE` resets and iterates, `RETURN` exits without reset. -/
  runWhile st c bdy := do
    let (st1, cond) ← evalConditional st c
    if cond.toBool then do
      let st2 := { st1 with symbol_table := st1.symbol_table.scope_in }
      let st3 ← m.body st2 bdy
      let st4 := { st3 with symbol_table := st3.symbol_table.scope_out }
      if st4.loop_status = .BREAK then .ok { st4 with loop_status := .DEFAULT }
      else if st4.loop_status = .CONTINUE then
        m.runWhile { st4 with loop_status := .DEFAULT } c bdy
      else if st4.loop_status = .RETURN then .ok st4
      else m.runWhile st4 c bdy
    else .ok st1
  /- `Interpreter::eval_return` (`interpreter.rs`, lines 1378–1389):
  set `return_value := null` and `loop_status := RETURN` first, then
  evaluate the operand if present. -/
  ret st e := do
    let st1 := { st with return_value := .null, loop_status := .RETURN }
    match e with
    | none => .ok st1
    | some ex => do
        let (st2, v) ← m.res st1 ex
        .ok { st2 with return_value := v }
  /- `Interpreter::eval_type` (`interpreter.rs`, lines 1111–1171). -/
  typeOf st t :=
    match t with
    | .arrayDef boundTrees elemName => do
        let (st1, bs, size) ← m.boundsOf st boundTrees
        let elemType := if elemName ≠ "number" ∧ elemName ≠ "text" then
            PointerType.STRUCTURE elemName
          else PointerType.PRIMITIVE
        .ok (st1, ⟨0, size, .ARRAY bs elemType⟩)
    | .pointerTo inner => do
        let (st1, linkType) ← m.typeOf st inner
        .ok (st1, ⟨0, 1, .LINK linkType.pointer_type⟩)
    | .base name =>
        if name ≠ "number" ∧ name ≠ "text" then do
          let sz ← st.get_struct_size name
          .ok (st, ⟨0, sz, .STRUCTURE name⟩)
        else .ok (st, ⟨0, 1, .PRIMITIVE⟩)
  /- the bounds loop of `eval_type` (lines 1122–1142): a missing lower
  bound is `1`; bound expressions are evaluated and cast with
  `extract_number().unwrap_or(1.0) as i32`; the size multiplies up
  `(end - start).abs() + 1`. -/
  boundsOf st bts :=
    match bts with
    | [] => .ok (st, ([], 1))
    | (lo, hi) :: rest => do
        let (st1, start) ← match lo with
          | none => pure (st, (1 : ℤ))
          | some e => do
              let (s, r) ← m.res st e
              pure (s, toI32 (r.extract_number.getD 1))
        let (st2, resHi) ← m.res st1 hi
        let endv := toI32 (resHi.extract_number.getD 1)
        let (st3, bs, sz) ← m.boundsOf st2 rest
        .ok (st3, ((start, endv) :: bs, ((endv - start).natAbs + 1) * sz))
  /- `Interpreter::eval_vardef` (`interpreter.rs`, lines 1081–1107). -/
  runVarDecl st ids ty := do
    let (st1, pointer) ← m.typeOf st ty
    .ok (vardefBind st1 pointer ids)
  /- `Interpreter::set_literal_in_memory` (`interpreter.rs`, lines
  469–627).  The `LINK` arm of the source only prints (lines 618–621).
  Panics model the source's `unwrap()` on `lit.values`/`lit.value` and
  the `bounds[0]` / `structure_defs.get(..).expect(..)` indexing. -/
  setLit st pointer lit :=
    match pointer.pointer_type with
    | .PRIMITIVE =>
        if ¬ lit.is_primitive ∨ (lit.lit_type ≠ "number" ∧ lit.lit_type ≠ "text") then
          .err "Cannot set a primitive type (text/number) equal to a non-primitive type"
        else
          match lit.value with
          | some v => do
              let env' ← st.env.set_value pointer v
              .ok { st with env := env' }
          | none => .panicked
    | .ARRAY bounds arrPtrType =>
        if lit.is_primitive then .err "Expected array, got a primitive (text/number)"
        else
          match bounds, lit.values with
          | [], _ => .panicked
          | _, none => .panicked
          | b0 :: brest, some vs =>
              if (b0.1 - b0.2).natAbs + 1 ≠ vs.length then
                .err "Expected array of a different size"
              else
                let elemPtrType := if brest.isEmpty then arrPtrType
                  else PointerType.ARRAY brest arrPtrType
                let offsetScale := (brest.map (fun d => (d.1 - d.2).natAbs + 1)).prod
                m.setArrayElems st pointer.address offsetScale elemPtrType 0 vs
    | .STRUCTURE name => do
        let structSize ← st.get_struct_size name
        match lit.values with
        | none => .panicked
        | some vs =>
            if structSize ≠ vs.length then
              .err ("Mismatched number of arguments for Structure '" ++ name ++ "'")
            else
              match st.structure_defs.lookup name with
              | none => .panicked
              | some structPtrs => m.setStructElems st pointer.address (structPtrs.zip vs)
    | .LINK _ => .ok st
  /- the element loop of the `ARRAY` arm (lines 511–561): element `i`
  lives at `base + i * offset_scale`; a composite element goes through
  the cell's indirection, allocating a structure block on first write
  (the recursive call of line 549 and the indirect call of line 555
  have their `Result`s discarded). -/
  setArrayElems st base offsetScale elemPtrType i vs :=
    match vs with
    | [] => .ok st
    | val :: rest => do
        let ptr : Pointer := ⟨base + i * offsetScale, offsetScale, elemPtrType⟩
        let st' ←
          if val.is_primitive ∨ val.lit_type = "array" then
            m.setLit st ptr val
          else do
            let atAddr ← st.env.get_value ptr
            if atAddr = .INITIALIZED ∨ atAddr = .NOTHING then do
              let s := match elemPtrType with
                | .STRUCTURE s => s
                | _ => "invlalid"
              let structSize ← st.get_struct_size s
              let (address, env1) := st.env.alloc structSize
              let structPtr : Pointer := ⟨address, structSize, .STRUCTURE s⟩
              let env2 ← env1.set_value ptr (.POINTER structPtr)
              let stb := { st with env := env2 }
              discardErr (m.setLit stb structPtr val) stb
            else
              match atAddr with
              | .POINTER p => discardErr (m.setLit st p val) st
              | _ => .err "Cannot reference structure pointer in memory"
        m.setArrayElems st' base offsetScale elemPtrType (i + 1) rest
  /- the field loop of the `STRUCTURE` arm (lines 571–616): a running
  primitive-or-declared pointer walks one cell per field; primitive
  fields are set with the `Result` discarded (line 587), composite
  fields allocate on first write (`?` on line 604) or follow the
  existing indirection (discarded, line 608). -/
  setStructElems st addr pairs :=
    match pairs with
    | [] => .ok st
    | (structPtr, val) :: rest => do
        let ptr : Pointer := ⟨addr, structPtr.size, structPtr.pointer_type⟩
        let st' ←
          if structPtr.pointer_type = .PRIMITIVE then
            discardErr (m.setLit st ptr val) st
          else do
            let atAddr ← st.env.get_value ptr
            if atAddr = .INITIALIZED ∨ atAddr = .NOTHING then do
              let (a, env1) := st.env.alloc structPtr.size
              let tmpPtr := { structPtr with address := a }
              let env2 ← env1.set_value ptr (.POINTER tmpPtr)
              m.setLit { st with env := env2 } tmpPtr val
            else
              match atAddr with
              | .POINTER p => discardErr (m.setLit st p val) st
              | _ => .err "Cannot reference structure pointer in memory"
        m.setStructElems st' (addr + 1) rest
  /- the parameter loop of the `CALL` branch (lines 996–1001):
  allocate, `insert_id?`, `set_literal_in_memory?`. -/
  bindParams st triples :=
    match triples with
    | [] => .ok st
    | ((val, name), pointer) :: rest => do
        let (a, env1) := st.env.alloc pointer.size
        let p := { pointer with address := a }
        let env2 ← env1.insert_id name p
        let st1 ← m.setLit { st with env := env2 } p val
        m.bindParams st1 rest

/-- The fuel-indexed evaluator family. -/
def machine : Nat → Machine
  | 0 => machineZero
  | fuel + 1 => machineStep (machine fuel)

/-- Entry point for `Interpreter::eval_resolvable` at a given fuel. -/
def eval_resolvable (fuel : Nat) (st : InterpState) (e : Expr) :
    RunResult (InterpState × LiteralValue) :=
  (machine fuel).res st e

/-- Entry point for `Interpreter::eval_body` at a given fuel. -/
def eval_body (fuel : Nat) (st : InterpState) (ss : List Stmt) : RunResult InterpState :=
  (machine fuel).body st ss

/-- Entry point for `Interpreter::eval_if` at a given fuel. -/
def eval_if (fuel : Nat) (st : InterpState) (c : CondTree) (thenB : List Stmt)
    (els : Option Stmt) : RunResult InterpState :=
  (machine fuel).runIf st c thenB els

/-- Entry point for `Interpreter::eval_while` at a given fuel. -/
def eval_while (fuel : Nat) (st : InterpState) (c : CondTree) (bdy : List Stmt) :
    RunResult InterpState :=
  (machine fuel).runWhile st c bdy

/-- The statement dispatcher of `Interpreter::eval_body` at a given fuel. -/
def eval_stmt (fuel : Nat) (st : InterpState) (s : Stmt) : RunResult InterpState :=
  (machine fuel).stmt st s

/-- Mirrors `Environment::new` (`interpreter.rs`, lines 82–100): one
namespace frame, a one-cell allocation whose cell is set to `INVALID`. -/
def Environment.new : Environment :=
  let env0 : Environment := ⟨[[]], [], [], []⟩
  let (_, env1) := env0.alloc 1
  { env1 with memory := env1.memory.set 0 .INVALID }

/-- Mirrors the state `Interpreter::new` (`interpreter.rs`, lines
442–453) starts evaluation with, parametrised by the registries that
`eval_struct_defs`/`eval_function_defs` and the semantic analyzer would
have filled in for the program under test. -/
def initState (structArgs : List (String × List String))
    (structureDefs : List (String × List Pointer))
    (functionDefs : List (String × InterpreterFunctionObj)) : InterpState where
  symbol_table := ⟨[[]], 0, structArgs⟩
  return_value := .null
  loop_status := .DEFAULT
  in_function_call := 0
  env := .new
  structure_defs := structureDefs
  function_defs := functionDefs

/-! ## `library_handler.rs` -/

/-- Mirrors `library_handler::handle_call` (`library_handler.rs`, lines
76–98): `print`/`display` write each argument's string form and a
newline to stdout (an I/O effect outside this model) and return the
null literal; every other name falls to the default arm, which also
returns the null literal. -/
def handle_call (name : String) (_vals : List LiteralValue) : RunResult LiteralValue :=
  match name with
  | "print" | "display" => .ok .null
  | _ => .ok .null

/-! ## `eval_reference`: `GETINDEX` address arithmetic

The `GETINDEX` arm of `Interpreter::eval_reference` (`interpreter.rs`,
lines 1297–1363), with the index expressions already evaluated to their
`extract_number().unwrap_or(0.0) as i32` values.  The running `offset`
is an `i32` that stays nonnegative (it starts as a product of extents
and only shrinks by division, with the `offset == 0` fixup), so it is
modelled as `ℕ`; in-range index offsets `(idx_val - bound.0)` /
`(bound.0 - idx_val)` are likewise nonnegative. -/

/-- The per-dimension extent `(d.0 - d.1).abs() + 1`. -/
def extent (d : Int × Int) : Nat := (d.1 - d.2).natAbs + 1

/-- The index loop of the `GETINDEX` arm (lines 1313–1350), iterating
the evaluated indices zipped against the *original* bounds
(`bounds.clone()`), while mutating `(address, offset, bounds)`: each
step drops the **last** remaining bound, advances the address by
`offset * |idx - bound.0|`, divides `offset` by the *current* bound's
extent (integer division), and resets a zero `offset` to `1`. -/
def getIndexLoop : List (Int × (Int × Int)) → Nat × Nat × List (Int × Int) →
    RunResult (Nat × Nat × List (Int × Int))
  | [], st => .ok st
  | (idxVal, bound) :: rest, (addr, offset, bnds) =>
      if bound.1 < bound.2 then
        -- low-to-high bounds
        if idxVal < bound.1 ∨ idxVal > bound.2 then
          .err "Index out of bounds"
        else
          let bnds' := bnds.dropLast
          let addr' := addr + offset * (idxVal - bound.1).toNat
          let offset' := offset / extent bound
          getIndexLoop rest (addr', if offset' = 0 then 1 else offset', bnds')
      else
        -- high-to-low bounds
        if idxVal > bound.1 ∨ idxVal < bound.2 then
          .err "Index out of bounds"
        else
          let bnds' := bnds.dropLast
          let addr' := addr + offset * (bound.1 - idxVal).toNat
          let offset' := offset / extent bound
          getIndexLoop rest (addr', if offset' = 0 then 1 else offset', bnds')

/-- The `GETINDEX` arm of `Interpreter::eval_reference` on an
already-resolved array pointer: initial `offset` is the product of the
extents of all bounds but the first (lines 1306–1309); after the loop
the pointer is narrowed to the element type (all bounds consumed) or to
a sub-array with the remaining bounds (lines 1352–1359). -/
def eval_reference_getIndex (ptr : Pointer) (idxVals : List Int) : RunResult Pointer :=
  match ptr.pointer_type with
  | .ARRAY bounds arrType => do
      let offset0 := ((bounds.drop 1).map extent).prod
      let (addr, offset, bnds) ← getIndexLoop (idxVals.zip bounds) (ptr.address, offset0, bounds)
      match bnds with
      | [] => .ok ⟨addr, 1, arrType⟩
      | b0 :: _ => .ok ⟨addr, offset * extent b0, .ARRAY bnds arrType⟩
  | _ => .err "Cannot index a non-array"

/-- The storage layout `Interpreter::set_literal_in_memory` (and
symmetrically `get_literal_in_memory`) gives a multi-dimensional array:
literal element `i` of the outer dimension starts at
`i * offset_scale` with `offset_scale` the product of the remaining
extents (`interpreter.rs`, lines 497–521), recursively.  `path` is the
0-based literal position per dimension. -/
def writeOffset : List (Int × Int) → List Nat → Nat
  | _, [] => 0
  | [], _ => 0
  | _ :: bs, i :: is => i * ((bs.map extent).prod) + writeOffset bs is

/-- Modelled from the spec's words (§4.4, for comparison): the linear
offset of indices `x₁ … xₖ` from the array base is
`Σ strideᵢ · |xᵢ − lᵢ|` with `strideᵢ = Π_{j>i} eⱼ`. -/
def specOffset : List (Int × Int) → List Int → Nat
  | _, [] => 0
  | [], _ => 0
  | b :: bs, x :: xs => (x - b.1).natAbs * ((bs.map extent).prod) + specOffset bs xs

/-! ## Theorems -/

theorem RunResult.bind_ok {α β : Type} (a : α) (f : α → RunResult β) :
    ((RunResult.ok a : RunResult α) >>= f) = f a := rfl

theorem RunResult.bind_err {α β : Type} (m : String) (f : α → RunResult β) :
    ((RunResult.err m : RunResult α) >>= f) = .err m := rfl

/-- The concrete program state for the claims about user-function
calls: a single user function `f` with no parameters whose body is a
bare `return`; the caller's `return_value` register holds `42` so that
its restoration is observable. -/
def c2State : InterpState :=
  { initState [] [] [("f", ⟨"f", [], [], [.sReturn none]⟩)] with
      return_value := .from_number 42 }

/-- The caller's body for the call claims: call `f()`, then declare
`y : number`. -/
def c2Body : List Stmt := [.exprStmt (.call "f" []), .varDecl ["y"] (.base "number")]

/-- C1: the interpreter does *not* dispatch non-user function names to
the external library.  Evaluating the call `print("Hello world!")`
(the default program of `main`) with an empty user-function registry
panics at the `HashMap` index `self.function_defs[&fn_id]`
(`interpreter.rs`, line 992), while the library's `handle_call` — which
the interpreter never invokes — would have printed and returned the
null literal. -/
theorem call_unknown_name_panics_instead_of_library_dispatch :
    eval_resolvable 5 (initState [] [] []) (.call "print" [.textLit "Hello world!"])
      = .panicked
    ∧ handle_call "print" [.from_text "Hello world!"] = .ok .null := by
  exact ⟨rfl, rfl⟩

/-- C4: `Interpreter::eval_unlink` (`interpreter.rs`, lines 1218–1220)
is a stub: executing `unlink x` on a state whose link-count table maps
address 5 to 1 returns the state entirely unchanged — in particular the
count is not decremented. -/
theorem eval_unlink_is_noop_on_link_counts :
    eval_stmt 5 { initState [] [] [] with
                    env := { Environment.new with
                               namespaceFrames := [[("x", ⟨1, 1, .LINK .PRIMITIVE⟩)]],
                               linked_values := [(5, 1)] } }
        (.sUnlink "x")
      = .ok { initState [] [] [] with
                env := { Environment.new with
                           namespaceFrames := [[("x", ⟨1, 1, .LINK .PRIMITIVE⟩)]],
                           linked_values := [(5, 1)] } } := by
  exact rfl

/-- C2: after a user-function call whose callee executed `return`, the
caller's saved `return_value` *is* restored (here to `42`), but
`loop_status` is left at `RETURN` — the `CALL` branch (`interpreter.rs`,
lines 1008–1019) never resets it — so the caller's `eval_body` breaks
out and the statement after the call (`y : number`) is never executed:
`y` is unbound in the final state. -/
theorem call_return_value_restored_but_loop_status_not_reset :
    ∃ st, eval_body 9 c2State c2Body = .ok st
      ∧ st.return_value = .from_number 42
      ∧ st.loop_status = .RETURN
      ∧ st.env.get_id "y" = .err "Could not find id 'y' in the namespace" := by
  exact ⟨_, rfl, rfl, rfl, rfl⟩

/-- The block-bearing statement for the scoping claim: an `if` whose
else-block declares `x : number`.  (The `eval_conditional` stub always
yields `NOTHING`, i.e. false, so the else branch is the reachable one.) -/
def c3Stmt : Stmt :=
  .sIf (.binComp (.numLit 1) (.numLit 1)) []
    (some (.block [.varDecl ["x"] (.base "number")]))

/-- C3: executing a block-bearing statement does not push a runtime
`Environment` scope: `eval_if`/`eval_while` scope the semantic
analyzer's symbol table instead (`interpreter.rs`, lines 1181/1183,
1194/1196, 1227/1229) and the `repeat` forms are stubs.  After the `if`
above completes, the variable declared inside its else block is still
bound — in the single *global* environment frame — and its memory cell
is still allocated, where the claim requires the block's scope to have
been popped and the binding's unreachable cell deallocated. -/
theorem block_statements_do_not_push_environment_scope :
    ∃ st, eval_stmt 9 (initState [] [] []) c3Stmt = .ok st
      ∧ st.env.namespaceFrames = [[("x", ⟨1, 1, .PRIMITIVE⟩)]]
      ∧ st.env.memory = [.INVALID, .INITIALIZED] := by
  exact ⟨_, rfl, rfl, rfl⟩

/-- C10: the zero-divisor guard of `eval_resolvable` tests only the
`/` token, so `7 mod 0` reaches the unguarded i32 remainder and panics,
while `7 / 0` is caught by the guard. -/
theorem mod_by_zero_panics_div_by_zero_guarded :
    eval_resolvable 2 (initState [] [] []) (.binop .mod (.numLit 7) (.numLit 0)) = .panicked
    ∧ eval_resolvable 2 (initState [] [] []) (.binop .div (.numLit 7) (.numLit 0))
        = .err "Cannot divide by zero" := by
  exact ⟨rfl, rfl⟩

/-- C6: `eval_reference`'s `GETINDEX` arithmetic does not compute the
row-major offset `Σ strideᵢ · |xᵢ − lᵢ|`.  On a `2 × 5` array with
bounds `[(1,2),(1,5)]` based at address 10, indexing `[1,2]` yields
address 12 (the loop divides the running offset by the extent of the
dimension just consumed instead of the next one), while the claimed
formula — which is also the layout `set_literal_in_memory` itself
stores elements at, as the third conjunct shows — places element
`(1,2)` at offset 1, i.e. address 11. -/
theorem getIndex_address_diverges_from_row_major_layout :
    eval_reference_getIndex ⟨10, 10, .ARRAY [(1, 2), (1, 5)] .PRIMITIVE⟩ [1, 2]
      = .ok ⟨12, 1, .PRIMITIVE⟩
    ∧ specOffset [(1, 2), (1, 5)] [1, 2] = 1
    ∧ (∀ (bs : List (Int × Int)) (xs : List Int),
        specOffset bs xs
          = writeOffset bs (List.zipWith (fun x b => (x - b.1).natAbs) xs bs)) := by
  refine ⟨rfl, rfl, ?_⟩
  intro bs xs
  induction xs generalizing bs with
  | nil => cases bs <;> rfl
  | cons x xs ih =>
      cases bs with
      | nil => rfl
      | cons b bs => simp [specOffset, writeOffset, List.zipWith, ih]

/-- C9 counterexample: two `SymbolType`s whose `is_pointer` fields
differ (everything else equal, no wildcards) are equal under the
source's `PartialEq` but not under the spec's structural-with-jokers
equality: the source never inspects `is_pointer`. -/
theorem symbolTypeEq_ignores_is_pointer :
    symbolTypeEq ⟨"number", true, 0⟩ ⟨"number", false, 0⟩ = true
    ∧ symbolTypeEqSpec ⟨"number", true, 0⟩ ⟨"number", false, 0⟩ = false := by
  exact ⟨rfl, rfl⟩

/-- C9 (amended): `SymbolType` equality is structural over
`basic_type` and `array_dimensions` only — `is_pointer` is ignored —
with the jokers: `"*"` on either side matches any `basic_type`, and a
negative `array_dimensions` (in particular `-1`) on either side
matches any rank. -/
theorem symbolTypeEq_characterization (a b : SymbolType) :
    symbolTypeEq a b = true ↔
      ((a.basic_type = "*" ∨ b.basic_type = "*" ∨ a.basic_type = b.basic_type)
       ∧ (a.array_dimensions < 0 ∨ b.array_dimensions < 0
          ∨ a.array_dimensions = b.array_dimensions)) := by
  obtain ⟨ba, pa, da⟩ := a
  obtain ⟨bb, pb, db⟩ := b
  simp only [symbolTypeEq, Bool.and_eq_true]
  constructor
  · rintro ⟨h1, h2⟩
    constructor
    · by_cases hb : ba ≠ "*" ∧ bb ≠ "*"
      · rw [if_pos hb] at h1
        exact Or.inr (Or.inr (by simpa using h1))
      · push_neg at hb
        by_cases hba : ba = "*"
        · exact Or.inl hba
        · exact Or.inr (Or.inl (hb hba))
    · by_cases hd : 0 ≤ da ∧ 0 ≤ db
      · rw [if_pos hd] at h2
        exact Or.inr (Or.inr (by simpa using h2))
      · push_neg at hd
        by_cases hda : da < 0
        · exact Or.inl hda
        · exact Or.inr (Or.inl (hd (by omega)))
  · rintro ⟨h1, h2⟩
    constructor
    · by_cases hb : ba ≠ "*" ∧ bb ≠ "*"
      · rw [if_pos hb]
        rcases h1 with h | h | h
        · exact absurd h hb.1
        · exact absurd h hb.2
        · simpa using h
      · rw [if_neg hb]
    · by_cases hd : 0 ≤ da ∧ 0 ≤ db
      · rw [if_pos hd]
        rcases h2 with h | h | h
        · omega
        · omega
        · simpa using h
      · rw [if_neg hd]

theorem MemorySpace.cmp_eq_gt_iff (x m : MemorySpace) :
    MemorySpace.cmp x m = .gt ↔
      (m.size < x.size ∨ (x.size = m.size ∧ x.address < m.address)) := by
  unfold MemorySpace.cmp
  split_ifs with h
  · rw [Nat.compare_eq_gt]
    constructor
    · exact fun hlt => Or.inl hlt
    · rintro (hlt | ⟨heq, _⟩)
      · exact hlt
      · exact absurd heq h
  · push_neg at h
    rw [Nat.compare_eq_gt]
    constructor
    · exact fun hlt => Or.inr ⟨h, hlt⟩
    · rintro (hlt | ⟨_, hlt⟩)
      · omega
      · exact hlt

theorem heapPeekStep_none (x : MemorySpace) : heapPeekStep none x = some x := rfl

theorem heapPeekStep_some (a x : MemorySpace) :
    heapPeekStep (some a) x = if MemorySpace.cmp x a = .gt then some x else some a := rfl

theorem heapPeek_fold_spec (l : List MemorySpace) :
    ∀ (acc : Option MemorySpace) (m : MemorySpace),
      l.foldl heapPeekStep acc = some m →
      (acc = some m ∨ m ∈ l)
      ∧ (∀ r ∈ l, MemorySpace.cmp r m ≠ .gt)
      ∧ (∀ a, acc = some a → MemorySpace.cmp a m ≠ .gt) := by
  induction l with
  | nil =>
      intro acc m h
      simp only [List.foldl_nil] at h
      refine ⟨Or.inl h, by simp, ?_⟩
      intro a ha
      rw [h] at ha
      injection ha with ha
      subst ha
      exact (not_congr (MemorySpace.cmp_eq_gt_iff _ _)).mpr (by omega)
  | cons x t ih =>
      intro acc m h
      rw [List.foldl_cons] at h
      obtain ⟨hmem, hall, hacc⟩ := ih (heapPeekStep acc x) m h
      cases acc with
      | none =>
          rw [heapPeekStep_none] at hmem hacc
          have hx : MemorySpace.cmp x m ≠ .gt := hacc x rfl
          refine ⟨?_, ?_, ?_⟩
          · rcases hmem with h0 | h1
            · injection h0 with h0
              subst h0
              exact Or.inr (List.mem_cons_self _ _)
            · exact Or.inr (List.mem_cons_of_mem _ h1)
          · intro r hr
            rcases List.mem_cons.mp hr with hrx | hrt
            · rw [hrx]; exact hx
            · exact hall r hrt
          · intro a ha
            exact Option.noConfusion ha
      | some a0 =>
          rw [heapPeekStep_some] at hmem hacc
          by_cases hgt : MemorySpace.cmp x a0 = .gt
          · rw [if_pos hgt] at hmem hacc
            have hx : MemorySpace.cmp x m ≠ .gt := hacc x rfl
            have ha0 : MemorySpace.cmp a0 m ≠ .gt :=
              (not_congr (MemorySpace.cmp_eq_gt_iff a0 m)).mpr (by
                have h1 := (MemorySpace.cmp_eq_gt_iff x a0).mp hgt
                have h2 := (not_congr (MemorySpace.cmp_eq_gt_iff x m)).mp hx
                omega)
            refine ⟨?_, ?_, ?_⟩
            · rcases hmem with h0 | h1
              · injection h0 with h0
                subst h0
                exact Or.inr (List.mem_cons_self _ _)
              · exact Or.inr (List.mem_cons_of_mem _ h1)
            · intro r hr
              rcases List.mem_cons.mp hr with hrx | hrt
              · rw [hrx]; exact hx
              · exact hall r hrt
            · intro a ha
              injection ha with ha
              subst ha
              exact ha0
          · rw [if_neg hgt] at hmem hacc
            have ha0 : MemorySpace.cmp a0 m ≠ .gt := hacc a0 rfl
            have hx : MemorySpace.cmp x m ≠ .gt :=
              (not_congr (MemorySpace.cmp_eq_gt_iff x m)).mpr (by
                have h1 := (not_congr (MemorySpace.cmp_eq_gt_iff x a0)).mp hgt
                have h2 := (not_congr (MemorySpace.cmp_eq_gt_iff a0 m)).mp ha0
                omega)
            refine ⟨?_, ?_, ?_⟩
            · rcases hmem with h0 | h1
              · exact Or.inl h0
              · exact Or.inr (List.mem_cons_of_mem _ h1)
            · intro r hr
              rcases List.mem_cons.mp hr with hrx | hrt
              · rw [hrx]; exact hx
              · exact hall r hrt
            · intro a ha
              injection ha with ha
              subst ha
              exact ha0

theorem heapPeek_some {l : List MemorySpace} {m : MemorySpace} (h : heapPeek l = some m) :
    m ∈ l ∧ ∀ r ∈ l, MemorySpace.cmp r m ≠ .gt := by
  obtain ⟨hmem, hall, _⟩ := heapPeek_fold_spec l none m h
  rcases hmem with h0 | h1
  · exact Option.noConfusion h0
  · exact ⟨h1, hall⟩

theorem heapPeek_fold_ne_none (l : List MemorySpace) :
    ∀ a : MemorySpace, l.foldl heapPeekStep (some a) ≠ none := by
  induction l with
  | nil => intro a h; cases h
  | cons x t ih =>
      intro a h
      rw [List.foldl_cons, heapPeekStep_some] at h
      split_ifs at h with hgt
      · exact ih x h
      · exact ih a h

theorem heapPeek_none {l : List MemorySpace} (h : heapPeek l = none) : l = [] := by
  match l with
  | [] => rfl
  | x :: t =>
      unfold heapPeek at h
      rw [List.foldl_cons] at h
      exact absurd h (heapPeek_fold_ne_none t x)

/-- The free heap for the allocation claim: regions `(1,2)` and `(5,3)`. -/
def c5Heap : List MemorySpace := [⟨1, 2⟩, ⟨5, 3⟩]

/-- An environment whose heap is `c5Heap` over an 8-cell memory. -/
def c5Env : Environment :=
  { namespaceFrames := [[]], memory := List.replicate 8 .INITIALIZED,
    heap := c5Heap, linked_values := [] }

/-- C5 counterexample: with free regions `(1,2)` and `(5,3)` and a
request of 2 cells, the best-fit rule of the claim designates the
region of size 2 at address 1 (the smallest fitting size), but
`Environment::alloc` returns address 5 — `BinaryHeap::pop` under the
source's `Ord` yields the *largest* region — and pushes back the
remainder `(7,1)`. -/
theorem alloc_picks_largest_region_not_best_fit :
    allocSpecPick c5Heap 2 = some ⟨1, 2⟩
    ∧ (c5Env.alloc 2).1 = 5
    ∧ (c5Env.alloc 2).2.heap = [⟨7, 1⟩, ⟨1, 2⟩] := by
  exact ⟨rfl, rfl, rfl⟩

/-- C5 (amended): `alloc(size)` is worst-fit: when some region fits, it
pops the region of *largest* size (ties broken by *lowest* starting
address), re-inserting the remainder when that region is larger than
requested; when even the largest region is smaller than the request
(or the heap is empty), it extends the memory vector with
`INITIALIZED` cells. -/
theorem alloc_worst_fit_characterization (env : Environment) (size : Nat) :
    ((∃ r ∈ env.heap, size ≤ r.size) →
      ∃ m ∈ env.heap,
        (env.alloc size).1 = m.address
        ∧ (∀ r ∈ env.heap, r.size ≤ m.size)
        ∧ (∀ r ∈ env.heap, r.size = m.size → m.address ≤ r.address)
        ∧ (env.alloc size).2.memory = env.memory
        ∧ (env.alloc size).2.heap =
            (if 0 < m.size - size then
              (⟨m.address + size, m.size - size⟩ : MemorySpace) :: env.heap.erase m
             else env.heap.erase m))
    ∧ ((∀ r ∈ env.heap, r.size < size) →
        (env.alloc size).1 = env.memory.length
        ∧ (env.alloc size).2.memory = env.memory ++ List.replicate size .INITIALIZED
        ∧ (env.alloc size).2.heap = env.heap) := by
  match hpk : heapPeek env.heap with
  | none =>
      have hempty : env.heap = [] := heapPeek_none hpk
      have halloc : env.alloc size =
          (env.memory.length,
           { env with memory := env.memory ++ List.replicate size .INITIALIZED }) := by
        simp only [Environment.alloc, hpk]
      constructor
      · rintro ⟨r, hr, -⟩
        rw [hempty] at hr
        cases hr
      · intro _
        rw [halloc]
        exact ⟨rfl, rfl, rfl⟩
  | some m =>
      obtain ⟨hmem, hmax⟩ := heapPeek_some hpk
      have hmax' : ∀ r ∈ env.heap, r.size ≤ m.size ∧ (r.size = m.size → m.address ≤ r.address) := by
        intro r hr
        have h2 := (not_congr (MemorySpace.cmp_eq_gt_iff r m)).mp (hmax r hr)
        omega
      constructor
      · rintro ⟨r0, hr0, hfit⟩
        have hge : size ≤ m.size := le_trans hfit (hmax' r0 hr0).1
        have halloc : env.alloc size =
            (m.address,
             { env with heap := if 0 < m.size - size then
                 (⟨m.address + size, m.size - size⟩ : MemorySpace) :: env.heap.erase m
               else env.heap.erase m }) := by
          simp only [Environment.alloc, hpk, if_neg (show ¬ m.size < size by omega)]
        rw [halloc]
        exact ⟨m, hmem, rfl, fun r hr => (hmax' r hr).1, fun r hr => (hmax' r hr).2, rfl, rfl⟩
      · intro hsmall
        have hlt : m.size < size := hsmall m hmem
        have halloc : env.alloc size =
            (env.memory.length,
             { env with memory := env.memory ++ List.replicate size .INITIALIZED }) := by
          simp only [Environment.alloc, hpk, if_pos hlt]
        rw [halloc]
        exact ⟨rfl, rfl, rfl⟩

/-- Witness for the worst-fit characterization at the concrete heap
`[(1,2),(5,3)]` with a request of 2 cells: region `(5,3)` fits. -/
theorem alloc_worst_fit_characterization_witness :
    ∃ m ∈ c5Env.heap,
      (c5Env.alloc 2).1 = m.address
      ∧ (∀ r ∈ c5Env.heap, r.size ≤ m.size)
      ∧ (∀ r ∈ c5Env.heap, r.size = m.size → m.address ≤ r.address)
      ∧ (c5Env.alloc 2).2.memory = c5Env.memory
      ∧ (c5Env.alloc 2).2.heap =
          (if 0 < m.size - 2 then
            (⟨m.address + 2, m.size - 2⟩ : MemorySpace) :: c5Env.heap.erase m
           else c5Env.heap.erase m) :=
  (alloc_worst_fit_characterization c5Env 2).1 ⟨⟨5, 3⟩, by decide, by decide⟩

theorem dropWhile_head_not {α : Type} (p : α → Bool) (l : List α) :
    l.dropWhile p = [] ∨ ∃ h tl, l.dropWhile p = h :: tl ∧ p h = false := by
  induction l with
  | nil => exact Or.inl rfl
  | cons x t ih =>
      by_cases hx : p x
      · rw [List.dropWhile_cons_of_pos hx]
        exact ih
      · rw [List.dropWhile_cons_of_neg (by simpa using hx)]
        exact Or.inr ⟨x, t, rfl, by simpa using hx⟩

theorem scanRuns_nil (a : Nat) : scanRuns [] a = [] := by
  simp [scanRuns]

theorem scanRuns_cons_nothing (rest : List PrimitiveType) (a : Nat) :
    scanRuns (.NOTHING :: rest) a =
      ⟨a, 1 + (rest.takeWhile (· == .NOTHING)).length⟩ ::
        scanRuns ((rest.dropWhile (· == .NOTHING)).drop 1)
          (a + (1 + (rest.takeWhile (· == .NOTHING)).length) + 1) := by
  simp [scanRuns]

theorem scanRuns_cons_other (c : PrimitiveType) (rest : List PrimitiveType) (a : Nat)
    (hc : c ≠ .NOTHING) : scanRuns (c :: rest) a = scanRuns rest (a + 1) := by
  simp only [scanRuns]
  rw [if_neg hc]

theorem scanRuns_lb (l : List PrimitiveType) (a : Nat) :
    ∀ r ∈ scanRuns l a, a ≤ r.address ∧ 1 ≤ r.size := by
  induction l, a using scanRuns.induct with
  | case1 a =>
      intro r hr
      rw [scanRuns_nil] at hr
      cases hr
  | case2 rest a =>
      rename_i n ih
      have hn : n = 1 + (rest.takeWhile (· == .NOTHING)).length := rfl
      rw [hn] at ih
      intro r hr
      rw [scanRuns_cons_nothing] at hr
      rcases List.mem_cons.mp hr with h0 | h1
      · rw [h0]
        exact ⟨le_refl a, Nat.le_add_right 1 _⟩
      · have := ih r h1
        omega
  | case3 c rest a hc ih =>
      intro r hr
      rw [scanRuns_cons_other c rest a hc] at hr
      have := ih r hr
      omega

theorem scanRuns_sep (l : List PrimitiveType) (a : Nat) :
    ∀ r1 ∈ scanRuns l a, ∀ r2 ∈ scanRuns l a, r1.address + r1.size ≠ r2.address := by
  induction l, a using scanRuns.induct with
  | case1 a =>
      intro r1 hr1
      rw [scanRuns_nil] at hr1
      cases hr1
  | case2 rest a =>
      rename_i n ih
      have hn : n = 1 + (rest.takeWhile (· == .NOTHING)).length := rfl
      rw [hn] at ih
      intro r1 hr1 r2 hr2
      rw [scanRuns_cons_nothing] at hr1 hr2
      have hlb := scanRuns_lb ((rest.dropWhile (· == .NOTHING)).drop 1)
        (a + (1 + (rest.takeWhile (· == .NOTHING)).length) + 1)
      rcases List.mem_cons.mp hr1 with h1 | h1 <;> rcases List.mem_cons.mp hr2 with h2 | h2
      · rw [h1, h2]
        show a + (1 + _) ≠ a
        omega
      · rw [h1]
        have := hlb r2 h2
        show a + (1 + (rest.takeWhile (· == .NOTHING)).length) ≠ r2.address
        omega
      · rw [h2]
        have h3 := hlb r1 h1
        have h4 : 1 ≤ r1.size := h3.2
        show r1.address + r1.size ≠ a
        omega
      · exact ih r1 h1 r2 h2
  | case3 c rest a hc ih =>
      intro r1 hr1 r2 hr2
      rw [scanRuns_cons_other c rest a hc] at hr1 hr2
      exact ih r1 hr1 r2 hr2

theorem exists_mem_cons_iff' {α : Type} (P : α → Prop) (x : α) (L : List α) :
    (∃ r ∈ x :: L, P r) ↔ (P x ∨ ∃ r ∈ L, P r) := by
  constructor
  · rintro ⟨r, hr, hp⟩
    rcases List.mem_cons.mp hr with h0 | h1
    · subst h0
      exact Or.inl hp
    · exact Or.inr ⟨r, h1, hp⟩
  · rintro (hp | ⟨r, hr, hp⟩)
    · exact ⟨x, List.mem_cons_self _ _, hp⟩
    · exact ⟨r, List.mem_cons_of_mem _ hr, hp⟩

theorem scanRuns_cover_iff (l : List PrimitiveType) (a : Nat) :
    ∀ i : Nat,
      (∃ r ∈ scanRuns l a, r.address ≤ a + i ∧ a + i < r.address + r.size)
      ↔ l[i]? = some .NOTHING := by
  induction l, a using scanRuns.induct with
  | case1 a =>
      intro i
      rw [scanRuns_nil]
      simp
  | case2 rest a =>
      rename_i n ih
      have hn : n = 1 + (rest.takeWhile (· == .NOTHING)).length := rfl
      rw [hn] at ih
      intro i
      rw [scanRuns_cons_nothing, exists_mem_cons_iff']
      have hhead : ∀ j : Nat,
          ((⟨a, 1 + (rest.takeWhile (· == .NOTHING)).length⟩ : MemorySpace).address ≤ a + j
           ∧ a + j < (⟨a, 1 + (rest.takeWhile (· == .NOTHING)).length⟩ : MemorySpace).address
               + (⟨a, 1 + (rest.takeWhile (· == .NOTHING)).length⟩ : MemorySpace).size)
          ↔ (a ≤ a + j ∧ a + j < a + (1 + (rest.takeWhile (· == .NOTHING)).length)) :=
        fun _ => Iff.rfl
      have htN : ∀ x ∈ rest.takeWhile (· == .NOTHING), x = .NOTHING := fun x hx => by
        simpa using List.mem_takeWhile_imp hx
      have hrest : rest.takeWhile (· == .NOTHING) ++ rest.dropWhile (· == .NOTHING) = rest :=
        List.takeWhile_append_dropWhile _ _
      have hlb := scanRuns_lb ((rest.dropWhile (· == .NOTHING)).drop 1)
        (a + (1 + (rest.takeWhile (· == .NOTHING)).length) + 1)
      match i with
      | 0 =>
          rw [hhead 0, List.getElem?_cons_zero]
          constructor
          · intro _
            rfl
          · intro _
            exact Or.inl ⟨Nat.le_add_right a 0, by omega⟩
      | Nat.succ j =>
          rw [hhead (j + 1), List.getElem?_cons_succ]
          by_cases hj1 : j < (rest.takeWhile (· == .NOTHING)).length
          · -- inside the leading NOTHING run: both sides hold
            have hcell : rest[j]?
                = (rest.takeWhile (· == .NOTHING))[j]? := by
              conv_lhs => rw [← hrest]
              rw [List.getElem?_append_left hj1]
            have hcell2 : (rest.takeWhile (· == .NOTHING))[j]? = some .NOTHING := by
              rw [List.getElem?_eq_getElem hj1]
              exact congrArg some (htN _ (List.getElem_mem hj1))
            rw [hcell, hcell2]
            constructor
            · intro _
              rfl
            · intro _
              exact Or.inl ⟨Nat.le_add_right a (j + 1), by omega⟩
          · push_neg at hj1
            have hcell : rest[j]?
                = (rest.dropWhile (· == .NOTHING))[j - (rest.takeWhile (· == .NOTHING)).length]? := by
              conv_lhs => rw [← hrest]
              rw [List.getElem?_append_right hj1]
            rw [hcell]
            have hheadfalse :
                ¬ (a ≤ a + (j + 1)
                   ∧ a + (j + 1) < a + (1 + (rest.takeWhile (· == .NOTHING)).length)) := by
              omega
            rcases dropWhile_head_not (· == .NOTHING) rest with hd | ⟨h0, tl, hd, hp⟩
            · -- no cell after the run: both sides fail
              rw [hd]
              simp only [List.getElem?_nil]
              rw [hd] at hlb
              constructor
              · rintro (hcov | ⟨r, hr, hcov⟩)
                · exact absurd hcov hheadfalse
                · rw [List.drop_nil] at hr
                  rw [scanRuns_nil] at hr
                  cases hr
              · intro hfalse
                cases hfalse
            · rw [hd]
              rw [hd] at hlb
              have hh0 : h0 ≠ .NOTHING := by simpa using hp
              match hj2 : j - (rest.takeWhile (· == .NOTHING)).length with
              | 0 =>
                  -- the non-NOTHING cell that ended the run: both sides fail
                  rw [List.getElem?_cons_zero]
                  constructor
                  · rintro (hcov | ⟨r, hr, hcov⟩)
                    · exact absurd hcov hheadfalse
                    · have := hlb r hr
                      omega
                  · intro hsome
                    injection hsome with hsome
                    exact absurd hsome hh0
              | Nat.succ j' =>
                  -- strictly past that cell: defer to the tail scan
                  rw [List.getElem?_cons_succ]
                  have hl' : (rest.dropWhile (· == .NOTHING)).drop 1 = tl := by
                    rw [hd]
                    rfl
                  have hl2 : List.drop 1 (h0 :: tl) = tl := rfl
                  have hidx : a + (1 + (rest.takeWhile (· == .NOTHING)).length) + 1 + j'
                      = a + (j + 1) := by omega
                  have hiff := ih j'
                  rw [hl', hidx] at hiff
                  rw [hl2, ← hiff]
                  constructor
                  · rintro (hcov | hexi)
                    · exact absurd hcov hheadfalse
                    · exact hexi
                  · intro hexi
                    exact Or.inr hexi
  | case3 c rest a hc ih =>
      intro i
      rw [scanRuns_cons_other c rest a hc]
      match i with
      | 0 =>
          rw [List.getElem?_cons_zero]
          constructor
          · rintro ⟨r, hr, hcov⟩
            have := scanRuns_lb rest (a + 1) r hr
            omega
          · intro hsome
            injection hsome with hsome
            exact absurd hsome hc
      | Nat.succ j =>
          rw [List.getElem?_cons_succ]
          have hiff := ih j
          have hidx : a + 1 + j = a + (j + 1) := by omega
          rw [hidx] at hiff
          exact hiff

theorem truncTrailingNothing_split (mem : List PrimitiveType) :
    ∃ k, mem = truncTrailingNothing mem ++ List.replicate k .NOTHING := by
  refine ⟨(mem.reverse.takeWhile (· == .NOTHING)).length, ?_⟩
  have h1 : mem.reverse.takeWhile (· == .NOTHING) ++ mem.reverse.dropWhile (· == .NOTHING)
      = mem.reverse := List.takeWhile_append_dropWhile _ _
  have h2 : mem.reverse.takeWhile (· == .NOTHING)
      = List.replicate (mem.reverse.takeWhile (· == .NOTHING)).length .NOTHING :=
    List.eq_replicate_of_mem (fun b hb => by simpa using List.mem_takeWhile_imp hb)
  calc mem = mem.reverse.reverse := (List.reverse_reverse mem).symm
    _ = (mem.reverse.takeWhile (· == .NOTHING)
          ++ mem.reverse.dropWhile (· == .NOTHING)).reverse := by rw [h1]
    _ = (mem.reverse.dropWhile (· == .NOTHING)).reverse
          ++ (mem.reverse.takeWhile (· == .NOTHING)).reverse := by rw [List.reverse_append]
    _ = truncTrailingNothing mem
          ++ List.replicate (mem.reverse.takeWhile (· == .NOTHING)).length .NOTHING := by
        rw [truncTrailingNothing]
        conv_lhs => rw [h2]
        rw [List.reverse_replicate]

theorem truncTrailingNothing_getLast (mem : List PrimitiveType) :
    (truncTrailingNothing mem).getLast? ≠ some .NOTHING := by
  unfold truncTrailingNothing
  rw [List.getLast?_reverse]
  rcases dropWhile_head_not (· == .NOTHING) mem.reverse with hnil | ⟨hh, tl, heq, hp⟩
  · rw [hnil]
    simp
  · rw [heq]
    simp only [List.head?_cons]
    intro hc
    injection hc with hc
    rw [hc] at hp
    simp at hp

/-- C7: after `Environment::build_heap` (on any memory with at least
one non-`NOTHING` cell — otherwise the Rust truncation loop panics),
(a) the rebuilt free heap contains no two regions `(a₁,s₁)`, `(a₂,s₂)`
with `a₁+s₁ = a₂`; (b) the regions are exactly the maximal runs of
`NOTHING` cells: an address is covered by some free region iff its cell
is `NOTHING`, so adjacent `NOTHING` runs always lie in one region;
(c) the retained memory is the original minus a trailing block of
`NOTHING` cells, and (d) it no longer ends in `NOTHING`. -/
theorem build_heap_coalesces_free_runs (env : Environment)
    (h : ∃ c ∈ env.memory, c ≠ .NOTHING) :
    ∃ env', env.build_heap = .ok env'
      ∧ (∀ r1 ∈ env'.heap, ∀ r2 ∈ env'.heap, r1.address + r1.size ≠ r2.address)
      ∧ (∀ i : Nat, (∃ r ∈ env'.heap, r.address ≤ i ∧ i < r.address + r.size)
           ↔ env'.memory[i]? = some .NOTHING)
      ∧ (∃ k, env.memory = env'.memory ++ List.replicate k .NOTHING)
      ∧ env'.memory.getLast? ≠ some .NOTHING := by
  have hany : env.memory.any (fun c => ! (c == .NOTHING)) = true := by
    obtain ⟨c, hc, hne⟩ := h
    exact List.any_eq_true.mpr ⟨c, hc, by simpa using hne⟩
  refine ⟨Environment.mk env.namespaceFrames (truncTrailingNothing env.memory)
            (scanRuns (truncTrailingNothing env.memory) 0) env.linked_values,
          ?_, ?_, ?_, ?_, ?_⟩
  · unfold Environment.build_heap
    rw [if_pos hany]
  · exact scanRuns_sep _ 0
  · intro i
    have hc := scanRuns_cover_iff (truncTrailingNothing env.memory) 0 i
    simpa using hc
  · exact truncTrailingNothing_split env.memory
  · exact truncTrailingNothing_getLast env.memory

/-- Witness for the coalescing theorem: a concrete five-cell memory
`[INVALID, NUMBER 1, NOTHING, NOTHING, NOTHING]` (one live cell, then a
run of three trailing `NOTHING`s). -/
theorem build_heap_coalesces_free_runs_witness :
    ∃ env', ({ namespaceFrames := [[]],
               memory := [.INVALID, .NUMBER 1, .NOTHING, .NOTHING, .NOTHING],
               heap := [], linked_values := [] } : Environment).build_heap = .ok env'
      ∧ (∀ r1 ∈ env'.heap, ∀ r2 ∈ env'.heap, r1.address + r1.size ≠ r2.address)
      ∧ (∀ i : Nat, (∃ r ∈ env'.heap, r.address ≤ i ∧ i < r.address + r.size)
           ↔ env'.memory[i]? = some .NOTHING)
      ∧ (∃ k, [PrimitiveType.INVALID, .NUMBER 1, .NOTHING, .NOTHING, .NOTHING]
            = env'.memory ++ List.replicate k .NOTHING)
      ∧ env'.memory.getLast? ≠ some .NOTHING :=
  build_heap_coalesces_free_runs
    { namespaceFrames := [[]],
      memory := [.INVALID, .NUMBER 1, .NOTHING, .NOTHING, .NOTHING],
      heap := [], linked_values := [] }
    ⟨.INVALID, by simp, by simp⟩

/-- C8: in the numeric `BINOP` branch of `eval_resolvable`, a division
whose two operands evaluated to number scalars fails with the
division-by-zero error exactly when the right operand's value is `0`,
and otherwise produces the quotient (f64 arithmetic modelled exactly
over `ℚ`; the source's zero test is exact). -/
theorem div_fails_iff_right_operand_zero
    (fuel : Nat) (st st1 st2 : InterpState) (e1 e2 : Expr) (v1 v2 : LiteralValue) (l r : ℚ)
    (h1 : eval_resolvable fuel st e1 = .ok (st1, v1))
    (h2 : eval_resolvable fuel st1 e2 = .ok (st2, v2))
    (hv1t : v1.lit_type = "number") (hv1p : v1.is_primitive = true)
    (hv1v : v1.value = some (.NUMBER l))
    (hv2t : v2.lit_type = "number") (hv2p : v2.is_primitive = true)
    (hv2v : v2.value = some (.NUMBER r)) :
    (eval_resolvable (fuel + 1) st (.binop .div e1 e2) = .err "Cannot divide by zero" ↔ r = 0)
    ∧ (r ≠ 0 →
        eval_resolvable (fuel + 1) st (.binop .div e1 e2)
          = .ok (st2, .from_number (l / r))) := by
  simp only [eval_resolvable] at h1 h2
  have hx1 : v1.extract_number = some l := by
    unfold LiteralValue.extract_number
    rw [if_neg (by simp [hv1t, hv1p]), hv1v]
  have hx2 : v2.extract_number = some r := by
    unfold LiteralValue.extract_number
    rw [if_neg (by simp [hv2t, hv2p]), hv2v]
  have hev : eval_resolvable (fuel + 1) st (.binop .div e1 e2)
      = RunResult.bind (binopNumeric .div l r)
          (fun n => .ok (st2, .from_number n)) := by
    simp only [eval_resolvable, machine, machineStep, bind, RunResult.bind, h1, h2,
      hv1p, hv2p, hv1t, hx1, hx2]
    simp
  rw [hev]
  by_cases hr : r = 0
  · rw [show binopNumeric .div l r = .err "Cannot divide by zero" from by
      unfold binopNumeric
      rw [if_pos ⟨rfl, hr⟩]]
    simp only [RunResult.bind]
    exact ⟨⟨fun _ => hr, fun _ => trivial⟩, fun h => absurd hr h⟩
  · rw [show binopNumeric .div l r = .ok (l / r) from by
      unfold binopNumeric
      rw [if_neg (by simp [hr])]]
    simp only [RunResult.bind]
    refine ⟨?_, fun _ => trivial⟩
    constructor
    · intro hc
      cases hc
    · intro hc
      exact absurd hc hr

/-- Witness for the division claim at `6 / 3` from the initial state. -/
theorem div_fails_iff_right_operand_zero_witness :
    (eval_resolvable 2 (initState [] [] []) (.binop .div (.numLit 6) (.numLit 3))
        = .err "Cannot divide by zero" ↔ (3 : ℚ) = 0)
    ∧ ((3 : ℚ) ≠ 0 →
        eval_resolvable 2 (initState [] [] []) (.binop .div (.numLit 6) (.numLit 3))
          = .ok (initState [] [] [], .from_number (6 / 3))) :=
  div_fails_iff_right_operand_zero 1 (initState [] [] []) (initState [] [] [])
    (initState [] [] []) (.numLit 6) (.numLit 3) (.from_number 6) (.from_number 3) 6 3
    rfl rfl rfl rfl rfl rfl rfl rfl

end Jellyfish
